/-
Verification of the Event Propagation Analysis Engine
(skills/eae/eae-performance-analyzer/scripts/analyze_event_flow.py).

Shallow embedding of the analyzer in Lean 4: the Python dict
mapping type names to successor lists becomes an insertion-ordered
association list; the BFS cascade tracer becomes a fuel-indexed loop
together with a proof that an explicit measure bounds the fuel needed;
the recursive DFS cycle detector becomes a fuel-indexed search with an
adequacy lemma. Python floats only ever hold small nonnegative integers
here (a sum of event counts divided by 1.0, then rounded to one decimal,
which is the identity on integer values), so they are embedded as
rational numbers.
-/
import Mathlib

namespace EAE

/-- Event propagation graph: insertion-ordered association list modelling
the Python dict from type name to list of successor names built by
build_event_graph. Keys are unique by construction. -/
abbrev EventGraph := List (String × List String)

/-- Lookup of the value list stored at a key, if present. -/
def dictFind? (g : EventGraph) (k : String) : Option (List String) :=
  (g.find? (fun p => p.1 == k)).map Prod.snd

/-- Python graph.get(k, []): the successor list of k, empty when k is
absent. -/
def lookupGraph (g : EventGraph) (k : String) : List String :=
  (dictFind? g k).getD []

/-- Python k in graph. -/
def dictContains (g : EventGraph) (k : String) : Bool :=
  (dictFind? g k).isSome

/-- Python graph[k].append(v), for k already present with a unique key. -/
def dictAppend (g : EventGraph) (k v : String) : EventGraph :=
  g.map (fun p => if p.1 == k then (p.1, p.2 ++ [v]) else p)

/-- Record produced by parse_fb_type for one .fbt file: the error field
models the "error" key of the returned dict (set on parse failure), the
remaining fields model the parsed FB type definition.  event_connections
holds (source, destination) reference strings. -/
structure FBType where
  error : Option String
  name : String
  event_inputs : List String
  event_outputs : List String
  fb_instances : List (String × String)
  event_connections : List (String × String)
deriving DecidableEq, Repr

/-- Characters of a string before its first dot: structural embedding of
the Python expression s.split(".")[0]. -/
def takeUntilDot : List Char → List Char
  | [] => []
  | c :: cs => if c = '.' then [] else c :: takeUntilDot cs

/-- Python s.split(".")[0]. -/
def beforeDot (s : String) : String := String.mk (takeUntilDot s.data)

/-- Python "." in s. -/
def containsDot (s : String) : Bool := s.data.contains '.'

/-- Python source.split(".")[0] if "." in source else fb_name, applied to
the source reference of a connection. -/
def connSourceFb (fbName : String) (conn : String × String) : String :=
  if containsDot conn.1 then beforeDot conn.1 else fbName

/-- destination handling of build_event_graph: the text before the dot
when the destination reference contains one, none otherwise (in which
case the code adds no edge). -/
def connDestFb (conn : String × String) : Option String :=
  if containsDot conn.2 then some (beforeDot conn.2) else none

/-- Inner loop body of build_event_graph for one connection of the
definition named fbName. -/
def buildConn (fbName : String) (g : EventGraph) (conn : String × String) :
    EventGraph :=
  match connDestFb conn with
  | none => g
  | some destFb =>
      if destFb ∈ lookupGraph g (connSourceFb fbName conn) then g
      else
        dictAppend
          (if dictContains g (connSourceFb fbName conn) then g
           else g ++ [(connSourceFb fbName conn, [])])
          (connSourceFb fbName conn) destFb

/-- Outer loop body of build_event_graph for one parsed FB type:
skips error records, registers the defining type as a node, then adds
the edges of its connections. -/
def buildDef (g : EventGraph) (fb : FBType) : EventGraph :=
  if fb.error.isSome then g
  else
    fb.event_connections.foldl (buildConn fb.name)
      (if dictContains g fb.name then g else g ++ [(fb.name, [])])

/-- build_event_graph: folds all parsed FB types into the event graph. -/
def build_event_graph (fb_types : List FBType) : EventGraph :=
  fb_types.foldl buildDef []

/-- Cascade path record appended to cascade_paths by trace_event_cascade:
source FB, node sequence, and running event count. -/
structure CascadePath where
  source : String
  path : List String
  events_generated : Nat
deriving DecidableEq, Repr

/-- Queue entry of the BFS in trace_event_cascade:
(current_fb, path, event_count). -/
abbrev TraceEntry := String × List String × Nat

/-- Inner for-loop of trace_event_cascade over the successor list of the
dequeued node: unvisited targets are marked visited and enqueued at the
back with the extended path and incremented event count. -/
def pushTargets (path : List String) (events : Nat) :
    List String → List TraceEntry → List String → List TraceEntry × List String
  | [], q, visited => (q, visited)
  | t :: ts, q, visited =>
      if t ∈ visited then pushTargets path events ts q visited
      else pushTargets path events ts (q ++ [(t, path ++ [t], events + 1)]) (t :: visited)

/-- While-loop of trace_event_cascade, indexed by fuel (none = fuel ran
out; the adequacy lemma below shows the explicit measure is always
enough fuel).  A dequeued entry whose node has an empty successor list is
recorded as a terminal cascade path; otherwise its unvisited successors
are enqueued and the entry itself is dropped. -/
def traceLoop (g : EventGraph) (sourceFb : String) :
    Nat → List TraceEntry → List String → List CascadePath →
    Option (List CascadePath)
  | _, [], _, acc => some acc
  | 0, _ :: _, _, _ => none
  | fuel + 1, (cur, path, events) :: rest, visited, acc =>
      match lookupGraph g cur with
      | [] => traceLoop g sourceFb fuel rest visited (acc ++ [⟨sourceFb, path, events⟩])
      | t :: ts =>
          let step := pushTargets path events (t :: ts) rest visited
          traceLoop g sourceFb fuel step.1 step.2 acc

/-- All strings occurring in successor lists of the graph: the universe
of nodes the BFS can ever enqueue. -/
def allTargets (g : EventGraph) : List String :=
  (g.map Prod.snd).flatten

/-- Termination measure of the BFS loop: queue length plus twice the
number of enqueueable nodes not yet visited.  Dequeuing costs one,
each enqueue pays for itself by newly visiting a node. -/
def traceMeasure (g : EventGraph) (q : List TraceEntry) (visited : List String) : Nat :=
  q.length + 2 * ((allTargets g).filter (fun x => decide (x ∉ visited))).length

/-- trace_event_cascade(graph, source_fb) with its default empty visited
set: runs the BFS loop with provably sufficient fuel. -/
def trace_event_cascade (g : EventGraph) (sourceFb : String) : List CascadePath :=
  (traceLoop g sourceFb (traceMeasure g [(sourceFb, [sourceFb], 1)] [])
    [(sourceFb, [sourceFb], 1)] [] []).getD []

/-- calculate_multiplication_factor: 0.0 for no cascade paths, otherwise
the sum of the per-path event counts divided by the 1 source event.  The
Python division float(total_events) / 1.0 is the identity on the integer
total, so the embedding is the cast of the sum itself. -/
def calculate_multiplication_factor (paths : List CascadePath) : ℚ :=
  if paths = [] then 0
  else (((paths.map CascadePath.events_generated).sum : ℕ) : ℚ)

/-- For-loop of the recursive dfs of detect_cycles over a successor
list: a neighbor is explored (via the continuation next, which is the
dfs one fuel level down) when it is not on the current path or is the
target itself; the first successful exploration short-circuits with
true, and an out-of-fuel exploration aborts with none. -/
def dfsScan (next : String → List String → Nat → Option Bool) :
    List String → List String → Nat → String → Option Bool
  | [], _, _, _ => some false
  | nb :: nbs, path, depth, target =>
      if nb ∉ path ∨ nb = target then
        match next nb (path ++ [nb]) (depth + 1) with
        | none => none
        | some true => some true
        | some false => dfsScan next nbs path depth target
      else dfsScan next nbs path depth target

/-- Recursive dfs helper of detect_cycles, indexed by fuel (none = fuel
ran out; the Python recursion always terminates because every call
increments depth and calls with depth above max_depth return at once, and
the adequacy lemma below shows fuel maxDepth + 2 - depth is enough).
Checks, in source order: the depth bound, the cycle-closing match
(current equals target at positive depth), then searches the successor
list. -/
def dfsFuel (g : EventGraph) (maxDepth : Nat) (target : String) :
    Nat → String → List String → Nat → Option Bool
  | 0, _, _, _ => none
  | fuel + 1, current, path, depth =>
      if maxDepth < depth then some false
      else if current = target ∧ 0 < depth then some true
      else dfsScan (fun nb p d => dfsFuel g maxDepth target fuel nb p d)
        (lookupGraph g current) path depth target

/-- Cycle record appended by detect_cycles for a source FB whose dfs
found a cycle. -/
structure CycleRec where
  fb : String
  cycle_depth : String
  severity : String
deriving DecidableEq, Repr

/-- detect_cycles: for every graph key, run the depth-limited dfs from
that node back to itself (initial path [node], depth 0) and record one
CRITICAL witness per node on success.  The fuel maxDepth + 2 is provably
sufficient for the search started at depth 0. -/
def detect_cycles (g : EventGraph) (maxDepth : Nat) : List CycleRec :=
  (g.map Prod.fst).filterMap (fun fb =>
    if (dfsFuel g maxDepth fb (maxDepth + 2) fb [fb] 0).getD false then
      some ⟨fb, "≤" ++ toString maxDepth ++ " hops", "CRITICAL"⟩
    else none)

/-- Bounded reachability: reachWithin g target k cur holds when the graph
has a walk of at least one and at most k edges from cur to target.  Used
to state that every reported cycle closes within the depth bound. -/
def reachWithin (g : EventGraph) (target : String) : Nat → String → Bool
  | 0, _ => false
  | k + 1, current =>
      (lookupGraph g current).any (fun nb => nb == target || reachWithin g target k nb)

/-- Finding record of the explosive-pattern list comprehension in
analyze_event_flow. -/
structure Finding where
  source : String
  multiplication : ℚ
  severity : String
  recommendation : String
deriving DecidableEq, Repr

/-- Explosive-pattern list comprehension of analyze_event_flow: one
finding per multiplication-factor entry strictly above 20, severity
CRITICAL above 50 and WARNING otherwise, in the order of the factor
map. -/
def explosive_patterns (mf : List (String × ℚ)) : List Finding :=
  (mf.filter (fun p => decide (20 < p.2))).map (fun p =>
    ⟨p.1, p.2, if 50 < p.2 then "CRITICAL" else "WARNING",
      "Use EventChainHead (SE.AppSequence) or adapter consolidation"⟩)

/-- ValidationResult restricted to the fields the analysis populates: the
details dict entries become typed fields (the summary sub-dict, which no
claim concerns, is derived data and omitted). -/
structure ValidationResult where
  success : Bool
  errors : List String
  warnings : List String
  multiplication_factors : List (String × ℚ)
  cascade_paths : List CascadePath
  explosive_patterns : List Finding
  cycles_detected : List CycleRec
deriving DecidableEq, Repr

/-- Python max(values) over a nonempty factor map (0 when empty, matching
the guarded max expression in exit_code). -/
def maxVals (l : List (String × ℚ)) : ℚ :=
  match l with
  | [] => 0
  | p :: ps => (ps.map Prod.snd).foldl max p.2

/-- ValidationResult.exit_code: 1 on failure, else 0 for an empty factor
map, else 11 when the maximal factor is at least 20, 10 when at least 10,
and 0 otherwise.  Findings and cycle records never enter the
computation. -/
def exit_code (r : ValidationResult) : Nat :=
  if !r.success then 1
  else if r.multiplication_factors = [] then 0
  else if 20 ≤ maxVals r.multiplication_factors then 11
  else if 10 ≤ maxVals r.multiplication_factors then 10
  else 0

/-- Replaces the findings-carrying fields of a result, leaving the fields
exit_code reads untouched; used to state that the exit code ignores the
detected cycles and explosive patterns. -/
def withFindings (r : ValidationResult) (eps : List Finding)
    (cycles : List CycleRec) : ValidationResult :=
  ⟨r.success, r.errors, r.warnings, r.multiplication_factors,
    r.cascade_paths, eps, cycles⟩

/-- analyze_event_flow from the list of per-file parse results onward
(file discovery is outside the embedding; an empty input list plays the
role of the all-files-failed early return).  Parse errors become
warnings, the graph is built from the remaining definitions, each graph
key is traced, factors of 0 are omitted from the factor map, and the
classifier and the depth-2 cycle detection fill the result.  Python
rounds each stored factor to one decimal, which is the identity on the
integer-valued factors produced here. -/
def analyze_event_flow (parsed : List FBType) : ValidationResult :=
  let warnings := parsed.filterMap FBType.error
  let fb_types := parsed.filter (fun fb => fb.error.isNone)
  if fb_types = [] then
    ⟨false, ["Failed to parse any .fbt files"], warnings, [], [], [], []⟩
  else
    let event_graph := build_event_graph fb_types
    if event_graph = [] then
      ⟨true, [], ["No event connections found in application"], [], [], [], []⟩
    else
      let st := event_graph.foldl (fun st p =>
          let cascade_paths := trace_event_cascade event_graph p.1
          let mult := calculate_multiplication_factor cascade_paths
          if 0 < mult then (st.1 ++ [(p.1, mult)], st.2 ++ cascade_paths)
          else st)
        (([], []) : List (String × ℚ) × List CascadePath)
      ⟨true, [], warnings, st.1, st.2.take 50,
        explosive_patterns st.1, detect_cycles event_graph 2⟩

/-- Numeric rank of a severity string, CRITICAL above WARNING above
anything else; used only to state the ordering the spec asks of the
findings list. -/
def sevRank (s : String) : Nat :=
  if s = "CRITICAL" then 2 else if s = "WARNING" then 1 else 0

/-- Modelled from the spec's words (the ordering requirement on the
classifier output): severities never increase between consecutive
findings.  Sorting by severity descending and then subject ascending, as
the spec demands, implies this predicate, so refuting it refutes the
spec's ordering. -/
def specSortedFindings : List Finding → Bool
  | [] => true
  | [_] => true
  | a :: b :: rest =>
      decide (sevRank b.severity ≤ sevRank a.severity) && specSortedFindings (b :: rest)

/-! Concrete inputs used by the claim theorems. -/

/-- Two-node cyclic event graph A -> B -> A. -/
def gAB : EventGraph := [("A", ["B"]), ("B", ["A"])]

/-- Star event graph: A with edges to the 35 childless nodes B1..B35. -/
def starGraph : EventGraph :=
  [("A", (List.range 35).map (fun i => "B" ++ toString (i + 1)))]

/-- One definition of type T whose wiring connects instance A to instance
B and back, yielding the cyclic graph T, A -> B, B -> A. -/
def cycleDefs : List FBType :=
  [⟨none, "T", [], [], [("A", "AT"), ("B", "BT")], [("A.EO", "B.EI"), ("B.EO", "A.EI")]⟩]

/-- One definition of type T declaring instance I of type U and wiring
I.EO to J.EI, where instance J is never declared. -/
def unknownInstanceDefs : List FBType :=
  [⟨none, "T", [], [], [("I", "U")], [("I.EO", "J.EI")]⟩]

/-- One definition of type S wiring instance A to 12 distinct childless
instances: A gets multiplication factor 24. -/
def fanout12Defs : List FBType :=
  [⟨none, "S", [], [], [], (List.range 12).map (fun i => ("A.EO", "C" ++ toString i ++ ".EI"))⟩]

/-- One definition of type S wiring instance B to 12 childless instances
(factor 24, WARNING) before wiring instance A to 30 childless instances
(factor 60, CRITICAL): the findings come out in the order B before A. -/
def mixedFanoutDefs : List FBType :=
  [⟨none, "S", [], [], [],
    ((List.range 12).map (fun i => ("B.EO", "X" ++ toString i ++ ".EI"))) ++
    ((List.range 30).map (fun i => ("A.EO", "Y" ++ toString i ++ ".EI")))⟩]

/-! Helper lemmas for the BFS tracer: the explicit measure is sufficient
fuel, and every recorded cascade path ends in a node with an empty
successor list. -/

lemma length_filter_drop (l : List String) (t : String) (v : List String)
    (htl : t ∈ l) (htv : t ∉ v) :
    (l.filter (fun x => decide (x ∉ t :: v))).length + 1 ≤
      (l.filter (fun x => decide (x ∉ v))).length := by
  induction l with
  | nil => cases htl
  | cons a l ih =>
      by_cases ha : a = t
      · subst ha
        rw [List.filter_cons_of_neg (by simp), List.filter_cons_of_pos (by simp [htv]),
          List.length_cons]
        have himp : ∀ x : String, decide (x ∉ a :: v) = true → decide (x ∉ v) = true := by
          intro x hx
          simp only [decide_eq_true_eq] at hx ⊢
          exact fun hv => hx (List.mem_cons_of_mem _ hv)
        have hmono := (List.monotone_filter_right l himp).length_le
        omega
      · have htl2 : t ∈ l := by
          rcases List.mem_cons.mp htl with h | h
          · exact absurd h.symm ha
          · exact h
        by_cases hv : a ∈ v
        · rw [List.filter_cons_of_neg (by simp [List.mem_cons, hv]),
            List.filter_cons_of_neg (by simp [hv])]
          exact ih htl2
        · rw [List.filter_cons_of_pos (by simp [List.mem_cons, ha, hv]),
            List.filter_cons_of_pos (by simp [hv]), List.length_cons, List.length_cons]
          have := ih htl2
          omega

lemma mem_allTargets_of_lookup {g : EventGraph} {cur x : String}
    (hx : x ∈ lookupGraph g cur) : x ∈ allTargets g := by
  unfold lookupGraph dictFind? at hx
  cases hf : g.find? (fun p => p.1 == cur) with
  | none => rw [hf] at hx; exact absurd hx (List.not_mem_nil x)
  | some p =>
      rw [hf] at hx
      simp at hx
      have hp : p ∈ g := List.mem_of_find?_eq_some hf
      unfold allTargets
      exact List.mem_flatten.mpr ⟨p.2, List.mem_map_of_mem _ hp, hx⟩

lemma pushTargets_measure (g : EventGraph) (path : List String) (events : Nat) :
    ∀ (ts : List String) (q : List TraceEntry) (v : List String),
      (∀ t ∈ ts, t ∈ allTargets g) →
      traceMeasure g (pushTargets path events ts q v).1
          (pushTargets path events ts q v).2 ≤ traceMeasure g q v := by
  intro ts
  induction ts with
  | nil => intro q v _; simp [pushTargets]
  | cons t ts ih =>
      intro q v hmem
      by_cases htv : t ∈ v
      · simp only [pushTargets, if_pos htv]
        exact ih q v (fun x hx => hmem x (List.mem_cons_of_mem _ hx))
      · simp only [pushTargets, if_neg htv]
        refine le_trans (ih _ _ (fun x hx => hmem x (List.mem_cons_of_mem _ hx))) ?_
        have hdrop := length_filter_drop (allTargets g) t v
          (hmem t (List.mem_cons_self _ _)) htv
        unfold traceMeasure
        simp only [List.length_append, List.length_cons, List.length_nil]
        omega

lemma traceLoop_nil (g : EventGraph) (s : String) (fuel : Nat) (v : List String)
    (acc : List CascadePath) : traceLoop g s fuel [] v acc = some acc := by
  cases fuel <;> rfl

lemma traceLoop_zero_cons (g : EventGraph) (s : String) (e : TraceEntry)
    (rest : List TraceEntry) (v : List String) (acc : List CascadePath) :
    traceLoop g s 0 (e :: rest) v acc = none := rfl

lemma traceLoop_leaf (g : EventGraph) (s : String) (fuel : Nat) (cur : String)
    (path : List String) (events : Nat) (rest : List TraceEntry)
    (v : List String) (acc : List CascadePath) (hl : lookupGraph g cur = []) :
    traceLoop g s (fuel + 1) ((cur, path, events) :: rest) v acc =
      traceLoop g s fuel rest v (acc ++ [⟨s, path, events⟩]) := by
  rw [traceLoop, hl]

lemma traceLoop_push (g : EventGraph) (s : String) (fuel : Nat) (cur : String)
    (path : List String) (events : Nat) (rest : List TraceEntry)
    (v : List String) (acc : List CascadePath) (t : String) (ts : List String)
    (hl : lookupGraph g cur = t :: ts) :
    traceLoop g s (fuel + 1) ((cur, path, events) :: rest) v acc =
      traceLoop g s fuel (pushTargets path events (t :: ts) rest v).1
        (pushTargets path events (t :: ts) rest v).2 acc := by
  rw [traceLoop, hl]

lemma traceLoop_isSome (g : EventGraph) (src : String) :
    ∀ (fuel : Nat) (q : List TraceEntry) (v : List String)
      (acc : List CascadePath),
      traceMeasure g q v ≤ fuel → (traceLoop g src fuel q v acc).isSome = true := by
  intro fuel
  induction fuel with
  | zero =>
      intro q v acc h
      cases q with
      | nil => rw [traceLoop_nil]; rfl
      | cons e rest =>
          exfalso
          unfold traceMeasure at h
          simp only [List.length_cons] at h
          omega
  | succ f ih =>
      intro q v acc h
      cases q with
      | nil => rw [traceLoop_nil]; rfl
      | cons e rest =>
          obtain ⟨cur, path, events⟩ := e
          cases hl : lookupGraph g cur with
          | nil =>
              rw [traceLoop_leaf g src f cur path events rest v acc hl]
              apply ih
              unfold traceMeasure at h ⊢
              simp only [List.length_cons] at h
              omega
          | cons t ts =>
              rw [traceLoop_push g src f cur path events rest v acc t ts hl]
              apply ih
              have hp := pushTargets_measure g path events (t :: ts) rest v
                (fun x hx => @mem_allTargets_of_lookup g cur x (hl ▸ hx))
              have h2 : traceMeasure g rest v + 1 = traceMeasure g ((cur, path, events) :: rest) v := by
                unfold traceMeasure
                simp only [List.length_cons]
                omega
              omega

lemma pushTargets_mem (path : List String) (events : Nat) :
    ∀ (ts : List String) (q : List TraceEntry) (v : List String) (e : TraceEntry),
      e ∈ (pushTargets path events ts q v).1 →
      e ∈ q ∨ ∃ t ∈ ts, e = (t, path ++ [t], events + 1) := by
  intro ts
  induction ts with
  | nil =>
      intro q v e he
      simp only [pushTargets] at he
      exact Or.inl he
  | cons t ts ih =>
      intro q v e he
      by_cases htv : t ∈ v
      · simp only [pushTargets, if_pos htv] at he
        rcases ih _ _ _ he with h | ⟨u, hu, he2⟩
        · exact Or.inl h
        · exact Or.inr ⟨u, List.mem_cons_of_mem _ hu, he2⟩
      · simp only [pushTargets, if_neg htv] at he
        rcases ih _ _ _ he with h | ⟨u, hu, he2⟩
        · rcases List.mem_append.mp h with h2 | h2
          · exact Or.inl h2
          · simp only [List.mem_singleton] at h2
            exact Or.inr ⟨t, List.mem_cons_self _ _, h2⟩
        · exact Or.inr ⟨u, List.mem_cons_of_mem _ hu, he2⟩

lemma traceLoop_sound (g : EventGraph) (src : String) :
    ∀ (fuel : Nat) (q : List TraceEntry) (v : List String)
      (acc res : List CascadePath),
      traceLoop g src fuel q v acc = some res →
      (∀ e ∈ q, e.2.1.getLast? = some e.1) →
      (∀ p ∈ acc, ∃ last, p.path.getLast? = some last ∧ lookupGraph g last = []) →
      ∀ p ∈ res, ∃ last, p.path.getLast? = some last ∧ lookupGraph g last = [] := by
  intro fuel
  induction fuel with
  | zero =>
      intro q v acc res hres hq hacc
      cases q with
      | nil =>
          rw [traceLoop_nil] at hres
          injection hres with h
          subst h
          exact hacc
      | cons e rest =>
          rw [traceLoop_zero_cons] at hres
          cases hres
  | succ f ih =>
      intro q v acc res hres hq hacc
      cases q with
      | nil =>
          rw [traceLoop_nil] at hres
          injection hres with h
          subst h
          exact hacc
      | cons e rest =>
          obtain ⟨cur, path, events⟩ := e
          cases hl : lookupGraph g cur with
          | nil =>
              rw [traceLoop_leaf g src f cur path events rest v acc hl] at hres
              refine ih _ _ _ _ hres
                (fun e he => hq e (List.mem_cons_of_mem _ he)) ?_
              intro p hp
              rcases List.mem_append.mp hp with h | h
              · exact hacc p h
              · simp only [List.mem_singleton] at h
                subst h
                refine ⟨cur, ?_, hl⟩
                have := hq (cur, path, events) (List.mem_cons_self _ _)
                simpa using this
          | cons t ts =>
              rw [traceLoop_push g src f cur path events rest v acc t ts hl] at hres
              refine ih _ _ _ _ hres ?_ hacc
              intro e he
              rcases pushTargets_mem path events (t :: ts) rest v e he with h | ⟨u, hu, he2⟩
              · exact hq e (List.mem_cons_of_mem _ h)
              · subst he2
                simp [List.getLast?_concat]

/-! Helper lemmas for the DFS cycle detector: the fuel maxDepth + 2 - depth
is always sufficient, and a successful search from a node witnesses a
closed walk of at most maxDepth edges. -/

lemma dfsScan_isSome (next : String → List String → Nat → Option Bool)
    (path : List String) (depth : Nat) (t : String)
    (hnext : ∀ nb : String, (next nb (path ++ [nb]) (depth + 1)).isSome = true) :
    ∀ nbs : List String, (dfsScan next nbs path depth t).isSome = true := by
  intro nbs
  induction nbs with
  | nil => rw [dfsScan]; rfl
  | cons nb nbs ih =>
      rw [dfsScan]
      by_cases hg : nb ∉ path ∨ nb = t
      · rw [if_pos hg]
        obtain ⟨b, hb⟩ := Option.isSome_iff_exists.mp (hnext nb)
        rw [hb]
        cases b
        · exact ih
        · rfl
      · rw [if_neg hg]
        exact ih

lemma dfsFuel_isSome (g : EventGraph) (maxD : Nat) (t : String) :
    ∀ (fuel : Nat) (cur : String) (path : List String) (depth : Nat),
      maxD + 2 ≤ fuel + depth → 1 ≤ fuel →
      (dfsFuel g maxD t fuel cur path depth).isSome = true := by
  intro fuel
  induction fuel with
  | zero => intro cur path depth _ h; omega
  | succ f ih =>
      intro cur path depth h _
      rw [dfsFuel]
      by_cases h1 : maxD < depth
      · rw [if_pos h1]; rfl
      · rw [if_neg h1]
        by_cases h2 : cur = t ∧ 0 < depth
        · rw [if_pos h2]; rfl
        · rw [if_neg h2]
          exact dfsScan_isSome _ path depth t
            (fun nb => ih nb (path ++ [nb]) (depth + 1) (by omega) (by omega))
            (lookupGraph g cur)

lemma dfsScan_eq_true (next : String → List String → Nat → Option Bool) :
    ∀ (nbs path : List String) (depth : Nat) (t : String),
      dfsScan next nbs path depth t = some true →
      ∃ nb ∈ nbs, next nb (path ++ [nb]) (depth + 1) = some true := by
  intro nbs
  induction nbs with
  | nil => intro path depth t h; rw [dfsScan] at h; simp at h
  | cons nb nbs ih =>
      intro path depth t h
      rw [dfsScan] at h
      by_cases hg : nb ∉ path ∨ nb = t
      · rw [if_pos hg] at h
        cases hd : next nb (path ++ [nb]) (depth + 1) with
        | none => rw [hd] at h; simp at h
        | some b =>
            rw [hd] at h
            cases b with
            | true => exact ⟨nb, List.mem_cons_self _ _, hd⟩
            | false =>
                simp only [] at h
                obtain ⟨u, hu, hdu⟩ := ih path depth t h
                exact ⟨u, List.mem_cons_of_mem _ hu, hdu⟩
      · rw [if_neg hg] at h
        obtain ⟨u, hu, hdu⟩ := ih path depth t h
        exact ⟨u, List.mem_cons_of_mem _ hu, hdu⟩

lemma dfsFuel_depth_le (g : EventGraph) (maxD : Nat) (t : String) (fuel : Nat)
    (cur : String) (path : List String) (depth : Nat)
    (h : dfsFuel g maxD t fuel cur path depth = some true) : depth ≤ maxD := by
  cases fuel with
  | zero => rw [dfsFuel] at h; cases h
  | succ f =>
      rw [dfsFuel] at h
      by_cases h1 : maxD < depth
      · rw [if_pos h1] at h; simp at h
      · omega

lemma dfsFuel_sound (g : EventGraph) (maxD : Nat) (t : String) :
    ∀ (fuel : Nat) (cur : String) (path : List String) (depth : Nat),
      dfsFuel g maxD t fuel cur path depth = some true →
      (cur = t ∧ 0 < depth) ∨ reachWithin g t (maxD - depth) cur = true := by
  intro fuel
  induction fuel with
  | zero => intro cur path depth h; rw [dfsFuel] at h; cases h
  | succ f ih =>
      intro cur path depth h
      rw [dfsFuel] at h
      by_cases h1 : maxD < depth
      · rw [if_pos h1] at h; simp at h
      · rw [if_neg h1] at h
        by_cases h2 : cur = t ∧ 0 < depth
        · exact Or.inl h2
        · rw [if_neg h2] at h
          obtain ⟨nb, hmem, hnb⟩ := dfsScan_eq_true _ (lookupGraph g cur) path depth t h
          have hdle : depth + 1 ≤ maxD := dfsFuel_depth_le g maxD t f nb _ _ hnb
          obtain ⟨m, hm⟩ : ∃ m, maxD - depth = m + 1 := ⟨maxD - depth - 1, by omega⟩
          right
          rw [hm, reachWithin]
          apply List.any_eq_true.mpr
          rcases ih nb _ _ hnb with ⟨hnbt, _⟩ | hreach
          · exact ⟨nb, hmem, by simp [hnbt]⟩
          · refine ⟨nb, hmem, ?_⟩
            have hmm : maxD - (depth + 1) = m := by omega
            rw [hmm] at hreach
            simp [hreach]

lemma detect_cycles_mem (g : EventGraph) (maxD : Nat) (c : CycleRec)
    (hc : c ∈ detect_cycles g maxD) :
    reachWithin g c.fb maxD c.fb = true := by
  unfold detect_cycles at hc
  obtain ⟨fb, hfb, hsome⟩ := List.mem_filterMap.mp hc
  by_cases hd : (dfsFuel g maxD fb (maxD + 2) fb [fb] 0).getD false = true
  · rw [if_pos hd] at hsome
    injection hsome with h
    subst h
    cases he : dfsFuel g maxD fb (maxD + 2) fb [fb] 0 with
    | none => rw [he] at hd; simp at hd
    | some b =>
        rw [he] at hd
        simp only [Option.getD_some] at hd
        subst hd
        rcases dfsFuel_sound g maxD fb (maxD + 2) fb [fb] 0 he with ⟨_, h0⟩ | hr
        · omega
        · rw [Nat.sub_zero] at hr
          exact hr
  · rw [if_neg hd] at hsome
    cases hsome

/-! Helper lemmas for the graph builder: every graph key is either the
name of a non-error definition or the raw source-side instance name of
one of its connections. -/

lemma dictAppend_keys (g : EventGraph) (k v : String) :
    (dictAppend g k v).map Prod.fst = g.map Prod.fst := by
  unfold dictAppend
  induction g with
  | nil => rfl
  | cons p g ih =>
      simp only [List.map_cons]
      by_cases h : (p.1 == k) = true
      · rw [if_pos h, ih]
      · rw [if_neg h, ih]

lemma buildConn_keys (n : String) (g : EventGraph) (c : String × String)
    (k : String) (hk : k ∈ (buildConn n g c).map Prod.fst) :
    k ∈ g.map Prod.fst ∨ k = connSourceFb n c := by
  unfold buildConn at hk
  cases hd : connDestFb c with
  | none => simp only [hd] at hk; exact Or.inl hk
  | some destFb =>
      simp only [hd] at hk
      by_cases hmem : destFb ∈ lookupGraph g (connSourceFb n c)
      · rw [if_pos hmem] at hk; exact Or.inl hk
      · rw [if_neg hmem, dictAppend_keys] at hk
        by_cases hc : dictContains g (connSourceFb n c) = true
        · rw [if_pos hc] at hk; exact Or.inl hk
        · rw [if_neg hc, List.map_append] at hk
          rcases List.mem_append.mp hk with h | h
          · exact Or.inl h
          · simp only [List.map_cons, List.map_nil, List.mem_singleton] at h
            exact Or.inr h

lemma foldlConn_keys (n : String) :
    ∀ (cs : List (String × String)) (g : EventGraph) (k : String),
      k ∈ (cs.foldl (buildConn n) g).map Prod.fst →
      k ∈ g.map Prod.fst ∨ ∃ c ∈ cs, k = connSourceFb n c := by
  intro cs
  induction cs with
  | nil => intro g k hk; exact Or.inl hk
  | cons c cs ih =>
      intro g k hk
      rw [List.foldl_cons] at hk
      rcases ih _ _ hk with h | ⟨c2, hc2, he⟩
      · rcases buildConn_keys n g c k h with h2 | h2
        · exact Or.inl h2
        · exact Or.inr ⟨c, List.mem_cons_self _ _, h2⟩
      · exact Or.inr ⟨c2, List.mem_cons_of_mem _ hc2, he⟩

lemma buildDef_keys (g : EventGraph) (fb : FBType) (k : String)
    (hk : k ∈ (buildDef g fb).map Prod.fst) :
    k ∈ g.map Prod.fst ∨
      (fb.error = none ∧
        (k = fb.name ∨ ∃ c ∈ fb.event_connections, k = connSourceFb fb.name c)) := by
  unfold buildDef at hk
  by_cases he : fb.error.isSome = true
  · rw [if_pos he] at hk; exact Or.inl hk
  · rw [if_neg he] at hk
    have hnone : fb.error = none := Option.not_isSome_iff_eq_none.mp he
    rcases foldlConn_keys fb.name fb.event_connections _ k hk with h | ⟨c, hc, hkc⟩
    · by_cases hc2 : dictContains g fb.name = true
      · rw [if_pos hc2] at h; exact Or.inl h
      · rw [if_neg hc2, List.map_append] at h
        rcases List.mem_append.mp h with h2 | h2
        · exact Or.inl h2
        · simp only [List.map_cons, List.map_nil, List.mem_singleton] at h2
          exact Or.inr ⟨hnone, Or.inl h2⟩
    · exact Or.inr ⟨hnone, Or.inr ⟨c, hc, hkc⟩⟩

lemma foldlDef_keys :
    ∀ (defs : List FBType) (g : EventGraph) (k : String),
      k ∈ (defs.foldl buildDef g).map Prod.fst →
      k ∈ g.map Prod.fst ∨
        ∃ fb ∈ defs, fb.error = none ∧
          (k = fb.name ∨ ∃ c ∈ fb.event_connections, k = connSourceFb fb.name c) := by
  intro defs
  induction defs with
  | nil => intro g k hk; exact Or.inl hk
  | cons fb defs ih =>
      intro g k hk
      rw [List.foldl_cons] at hk
      rcases ih _ _ hk with h | ⟨fb2, hfb2, hrest⟩
      · rcases buildDef_keys g fb k h with h2 | h2
        · exact Or.inl h2
        · exact Or.inr ⟨fb, List.mem_cons_self _ _, h2⟩
      · exact Or.inr ⟨fb2, List.mem_cons_of_mem _ hfb2, hrest⟩

/-! Claim theorems. -/

/-- C1: for every event graph and every source node with no outgoing
edges (empty successor list, whether the node is a key with an empty
list or absent), trace_event_cascade returns exactly the one trivial
path containing only the node, with events_generated 1, and the
multiplication factor computed from that result is exactly 1. -/
theorem C1_trivial_path (g : EventGraph) (n : String)
    (h : lookupGraph g n = []) :
    trace_event_cascade g n = [⟨n, [n], 1⟩] ∧
      calculate_multiplication_factor (trace_event_cascade g n) = 1 := by
  have h1 : trace_event_cascade g n = [⟨n, [n], 1⟩] := by
    unfold trace_event_cascade
    obtain ⟨k, hk⟩ : ∃ k, traceMeasure g [(n, [n], 1)] [] = k + 1 := by
      refine ⟨traceMeasure g [(n, [n], 1)] [] - 1, ?_⟩
      unfold traceMeasure
      simp only [List.length_cons, List.length_nil]
      omega
    rw [hk, traceLoop_leaf g n k n [n] 1 [] [] [] h, traceLoop_nil]
    rfl
  refine ⟨h1, ?_⟩
  rw [h1]
  unfold calculate_multiplication_factor
  norm_num

/-- Witness for C1 at the concrete one-node graph with no edges. -/
theorem C1_witness :
    trace_event_cascade [("A", ([] : List String))] "A" = [⟨"A", ["A"], 1⟩] ∧
      calculate_multiplication_factor
        (trace_event_cascade [("A", ([] : List String))] "A") = 1 :=
  C1_trivial_path [("A", [])] "A" (by decide)

/-- C2 counterexample: on the star graph A -> B1..B35 the multiplication
factor computed by the code is not 36. -/
theorem C2_counterexample :
    calculate_multiplication_factor (trace_event_cascade starGraph "A") ≠ 36 := by
  decide

/-- C2 amended: on the star graph A -> B1..B35 the trace records 35
terminal paths, one per child, each carrying events_generated 2 (the
source event plus the step to the child), so the factor — the sum of
those counts — is 70, not the 36 = 1 + 35 of the claim. -/
theorem C2_star_factor :
    (trace_event_cascade starGraph "A").length = 35 ∧
      ((trace_event_cascade starGraph "A").all
        (fun p => p.events_generated == 2)) = true ∧
      calculate_multiplication_factor (trace_event_cascade starGraph "A") = 70 := by
  decide

/-- C3 counterexample: in the two-node cycle A -> B -> A traced from A,
the BFS explores the path A, B, A whose frontier node A has successors
(B) that are all already visited; the claim requires that path to be
recorded as terminal, but the code records nothing at all: the returned
list of cascade paths is empty. -/
theorem C3_counterexample :
    trace_event_cascade gAB "A" = [] ∧
      (⟨"A", ["A", "B", "A"], 3⟩ : CascadePath) ∉ trace_event_cascade gAB "A" := by
  decide

/-- C3 amended: a path is recorded as terminal exactly when its frontier
node has no successors at all (empty successor list); a path whose
frontier has successors that are all already visited is silently dropped
and never recorded.  Hence every recorded cascade path ends in a node
whose successor list is empty. -/
theorem C3_terminal_frontier (g : EventGraph) (src : String) (p : CascadePath)
    (hp : p ∈ trace_event_cascade g src) :
    ∃ last, p.path.getLast? = some last ∧ lookupGraph g last = [] := by
  have hs := traceLoop_isSome g src (traceMeasure g [(src, [src], 1)] [])
    [(src, [src], 1)] [] [] le_rfl
  obtain ⟨res, hres⟩ := Option.isSome_iff_exists.mp hs
  have ht : trace_event_cascade g src = res := by
    unfold trace_event_cascade
    rw [hres]
    rfl
  refine traceLoop_sound g src _ _ _ _ _ hres ?_ ?_ p (ht ▸ hp)
  · intro e he
    simp only [List.mem_singleton] at he
    subst he
    rfl
  · intro q hq
    cases hq

/-- Witness for C3 amended at the one-node graph with no edges. -/
theorem C3_witness :
    ∃ last, (⟨"A", ["A"], 1⟩ : CascadePath).path.getLast? = some last ∧
      lookupGraph [("A", ([] : List String))] last = [] :=
  C3_terminal_frontier [("A", [])] "A" ⟨"A", ["A"], 1⟩ (by decide)

/-- C4 counterexample: one definition of type T declares instance I of
type U and wires I.EO to J.EI where J is not a declared instance.  The
claim says build resolves I to U, drops the edge for the unknown J with
a warning, and keeps graph nodes a subset of the corpus type names.  The
code does none of this: it never consults the instances list, adds the
edge I -> J between raw instance names, records no warning (the builder
produces none at all), and the resulting graph contains the node I,
which is not a corpus type name. -/
theorem C4_counterexample :
    build_event_graph unknownInstanceDefs = [("T", []), ("I", ["J"])] ∧
      "I" ∈ (build_event_graph unknownInstanceDefs).map Prod.fst ∧
      "I" ∉ unknownInstanceDefs.map FBType.name := by
  decide

/-- C4 amended: build_event_graph parses instance names directly out of
the connection strings without resolving them against the instances
list and without recording warnings; each connection with a dotted
destination contributes the edge from the source-side prefix (or the
defining type name for an undotted source) to the destination prefix.
Consequently every graph key is either the name of a non-error
definition or the raw source-side instance name of one of its
connections — not necessarily a corpus type name. -/
theorem C4_node_origin (defs : List FBType) (k : String)
    (hk : k ∈ (build_event_graph defs).map Prod.fst) :
    ∃ fb ∈ defs, fb.error = none ∧
      (k = fb.name ∨ ∃ c ∈ fb.event_connections, k = connSourceFb fb.name c) := by
  rcases foldlDef_keys defs [] k hk with h | h
  · cases h
  · exact h

/-- Witness for C4 amended: the node I of the counterexample graph is
the raw source-side instance name of the wiring entry of T. -/
theorem C4_witness :
    ∃ fb ∈ unknownInstanceDefs, fb.error = none ∧
      ("I" = fb.name ∨ ∃ c ∈ fb.event_connections, "I" = connSourceFb fb.name c) :=
  C4_node_origin unknownInstanceDefs "I" (by decide)

/-- C5 counterexample: the corpus whose node A has factor 24 already
produces a fan-out finding (severity WARNING), although 24 does not
exceed the claimed default threshold 30: the threshold hard-coded in the
classifier is 20. -/
theorem C5_counterexample :
    (analyze_event_flow fanout12Defs).explosive_patterns =
      [⟨"A", 24, "WARNING",
        "Use EventChainHead (SE.AppSequence) or adapter consolidation"⟩] ∧
      ¬ ((30 : ℚ) < 24) := by
  decide

/-- C5 amended: the classifier produces a fan-out finding for a factor
map entry if and only if its factor strictly exceeds the hard-coded
threshold 20 (not 30, and not configurable), with severity CRITICAL
exactly when the factor strictly exceeds 50 and WARNING otherwise. -/
theorem C5_threshold_characterization (mf : List (String × ℚ)) (s : String)
    (m : ℚ) (sv rc : String) :
    (⟨s, m, sv, rc⟩ : Finding) ∈ explosive_patterns mf ↔
      ((s, m) ∈ mf ∧ 20 < m ∧
        sv = (if 50 < m then "CRITICAL" else "WARNING") ∧
        rc = "Use EventChainHead (SE.AppSequence) or adapter consolidation") := by
  unfold explosive_patterns
  constructor
  · intro hf
    obtain ⟨p, hp, hpe⟩ := List.mem_map.mp hf
    obtain ⟨hpmem, hp20⟩ := List.mem_filter.mp hp
    simp only [decide_eq_true_eq] at hp20
    injection hpe with h1 h2 h3 h4
    subst h1
    subst h2
    exact ⟨hpmem, hp20, h3.symm, h4.symm⟩
  · rintro ⟨hmem, h20, hsev, hrec⟩
    subst hsev
    subst hrec
    apply List.mem_map.mpr
    exact ⟨(s, m), List.mem_filter.mpr ⟨hmem, by simp [h20]⟩, rfl⟩

/-- Witness for C5 amended at a one-entry factor map with factor 24. -/
theorem C5_witness :
    (⟨"A", 24, "WARNING",
      "Use EventChainHead (SE.AppSequence) or adapter consolidation"⟩ : Finding) ∈
      explosive_patterns [("A", 24)] :=
  (C5_threshold_characterization [("A", 24)] "A" 24 "WARNING"
    "Use EventChainHead (SE.AppSequence) or adapter consolidation").mpr (by decide)

/-- C6: detect_cycles never reports a node without a closed walk of at
least one and at most maxDepth edges back to itself (so no reported
cycle closes deeper than maxDepth), and with maxDepth 0 it reports no
cycles on any graph. -/
theorem C6_cycle_depth_bound :
    (∀ (g : EventGraph) (maxDepth : Nat) (c : CycleRec),
      c ∈ detect_cycles g maxDepth →
        reachWithin g c.fb maxDepth c.fb = true) ∧
    (∀ g : EventGraph, detect_cycles g 0 = []) := by
  refine ⟨fun g maxD c hc => detect_cycles_mem g maxD c hc, fun g => ?_⟩
  rw [List.eq_nil_iff_forall_not_mem]
  intro c hc
  have h := detect_cycles_mem g 0 c hc
  simp [reachWithin] at h

/-- Witness for C6 on the two-node cycle: the reported witness for A is
backed by an actual closed walk within 2 hops, and depth 0 reports
nothing. -/
theorem C6_witness :
    reachWithin gAB "A" 2 "A" = true ∧ detect_cycles gAB 0 = [] :=
  ⟨C6_cycle_depth_bound.1 gAB 2 ⟨"A", "≤2 hops", "CRITICAL"⟩ (by decide),
    C6_cycle_depth_bound.2 gAB⟩

/-- C7 counterexample: on the cyclic corpus the analysis reports two
CRITICAL cycle findings, yet the exit code is 0, not the claimed 11: the
exit code is computed from the multiplication factors alone (here the
maximum factor is 1) and never consults findings or cycles. -/
theorem C7_counterexample :
    exit_code (analyze_event_flow cycleDefs) = 0 ∧
      (analyze_event_flow cycleDefs).cycles_detected.map CycleRec.severity =
        ["CRITICAL", "CRITICAL"] := by
  decide

/-- C7 amended: the exit code is a function of success and the
multiplication-factor map only: 1 iff success is false; otherwise 0 iff
the map is empty or its maximum is below 10, 10 iff the maximum is in
[10, 20), and 11 iff the maximum is at least 20.  Findings and detected
cycles never influence it. -/
theorem C7_exit_code_characterization (r : ValidationResult)
    (eps : List Finding) (cycles : List CycleRec) :
    (exit_code r = 1 ↔ r.success = false) ∧
    (exit_code r = 0 ↔ r.success = true ∧
      (r.multiplication_factors = [] ∨ maxVals r.multiplication_factors < 10)) ∧
    (exit_code r = 10 ↔ r.success = true ∧ r.multiplication_factors ≠ [] ∧
      10 ≤ maxVals r.multiplication_factors ∧
      maxVals r.multiplication_factors < 20) ∧
    (exit_code r = 11 ↔ r.success = true ∧ r.multiplication_factors ≠ [] ∧
      20 ≤ maxVals r.multiplication_factors) ∧
    exit_code (withFindings r eps cycles) = exit_code r := by
  cases hs : r.success with
  | false => simp [exit_code, withFindings, hs]
  | true =>
      by_cases hmf : r.multiplication_factors = []
      · simp [exit_code, withFindings, hs, hmf]
      · by_cases h20 : 20 ≤ maxVals r.multiplication_factors
        · have hn10 : ¬ maxVals r.multiplication_factors < 10 :=
            not_lt.mpr (le_trans (by norm_num) h20)
          have hn20 : ¬ maxVals r.multiplication_factors < 20 := not_lt.mpr h20
          simp [exit_code, withFindings, hs, hmf, h20, hn10, hn20]
        · by_cases h10 : 10 ≤ maxVals r.multiplication_factors
          · have hn10 : ¬ maxVals r.multiplication_factors < 10 := not_lt.mpr h10
            have hlt20 : maxVals r.multiplication_factors < 20 := not_le.mp h20
            simp [exit_code, withFindings, hs, hmf, h20, h10, hn10, hlt20]
          · have hlt10 : maxVals r.multiplication_factors < 10 := not_le.mp h10
            simp [exit_code, withFindings, hs, hmf, h20, h10, hlt10]

set_option maxRecDepth 40000 in
/-- C8 counterexample: on the corpus wiring B (factor 24) before A
(factor 60) the findings list is WARNING before CRITICAL — in graph
insertion order, not sorted by severity descending as claimed. -/
theorem C8_counterexample :
    (analyze_event_flow mixedFanoutDefs).explosive_patterns.map Finding.severity =
      ["WARNING", "CRITICAL"] ∧
    specSortedFindings (analyze_event_flow mixedFanoutDefs).explosive_patterns
      = false := by
  decide

/-- C8 amended: the classifier applies no sorting at all; the findings
appear as a subsequence of the multiplication-factor map (graph
insertion order), which — the pipeline being a pure function of its
input — still makes identical inputs produce identical output, but not
output sorted by severity then subject. -/
theorem C8_order_preserved (mf : List (String × ℚ)) :
    List.Sublist ((explosive_patterns mf).map Finding.source)
      (mf.map Prod.fst) := by
  unfold explosive_patterns
  rw [List.map_map]
  exact (List.filter_sublist mf).map _

/-- C9: both traversals terminate on every finite graph, cyclic or not:
the BFS loop of trace_event_cascade completes (returns some) within the
explicit fuel bound it is run with, for every graph and source, and the
DFS of detect_cycles completes within fuel maxDepth + 2 for every graph,
start node and depth bound. -/
theorem C9_termination (g : EventGraph) (src fb : String) (maxDepth : Nat) :
    (traceLoop g src (traceMeasure g [(src, [src], 1)] [])
      [(src, [src], 1)] [] []).isSome = true ∧
    (dfsFuel g maxDepth fb (maxDepth + 2) fb [fb] 0).isSome = true := by
  constructor
  · exact traceLoop_isSome g src _ _ _ _ le_rfl
  · exact dfsFuel_isSome g maxDepth fb (maxDepth + 2) fb [fb] 0 (by omega) (by omega)

/-- C10: in the cyclic corpus the node A has an outgoing edge, yet its
trace returns no cascade paths (every frontier ends with only visited
successors and no path is recorded), its multiplication factor is
therefore 0, and A is omitted from the multiplication_factors map of the
final report. -/
theorem C10_cycle_source_empty :
    lookupGraph (build_event_graph cycleDefs) "A" = ["B"] ∧
      trace_event_cascade (build_event_graph cycleDefs) "A" = [] ∧
      calculate_multiplication_factor
        (trace_event_cascade (build_event_graph cycleDefs) "A") = 0 ∧
      "A" ∉ (analyze_event_flow cycleDefs).multiplication_factors.map Prod.fst := by
  decide

end EAE
